import Mathlib

/-!
Verification of the static-site build pipeline in `build.js`.

The pipeline is embedded shallowly: file contents are `List Char`, the
components directory is a list of `Component` records (directory name plus
the optional `name.html` / `name.css` / `name.js` contents), the build
directory is a `BuildDir` record, and JavaScript's `String.prototype.replace`
is modelled faithfully, including the `$`-substitution patterns applied to a
string replacement value and the first-occurrence-only behaviour of a string
search value.
-/

namespace SiteBuild

/-- Characters of a string literal, the content representation used throughout. -/
def chars (s : String) : List Char := s.toList

/-- Newline character appended after each concatenated file. -/
def nlChar : Char := Char.ofNat 10

/-- The dollar character, special in JS replacement strings. -/
def dollarChar : Char := Char.ofNat 36

/-- Ampersand: in a replacement string, dollar-ampersand denotes the matched text. -/
def ampChar : Char := Char.ofNat 38

/-- Backquote: in a replacement string, dollar-backquote denotes the text before the match. -/
def backquoteChar : Char := Char.ofNat 96

/-- Single quote: in a replacement string, dollar-quote denotes the text after the match. -/
def singleQuoteChar : Char := Char.ofNat 39

/-- Double quote character. -/
def doubleQuoteChar : Char := Char.ofNat 34

/-- A component directory under `./components`: its directory name and the
contents of its optional lowercase-named `.html`, `.css` and `.js` files
(`none` when the file does not exist). -/
structure Component where
  name : List Char
  html : Option (List Char)
  css : Option (List Char)
  js : Option (List Char)
deriving DecidableEq

/-- Index of the first occurrence of `pat` in a string, as in JS `indexOf`. -/
def indexOf? (pat : List Char) : List Char → Option Nat
  | [] => if pat.isPrefixOf ([] : List Char) then some 0 else none
  | c :: t => if pat.isPrefixOf (c :: t) then some 0 else (indexOf? pat t).map (fun i => i + 1)

/-- Whether `pat` occurs as a contiguous substring of `s`. -/
def occursIn (pat s : List Char) : Bool := (indexOf? pat s).isSome

/-- ECMAScript GetSubstitution for a string replacement value with no capture
groups: dollar-dollar yields a dollar, dollar-ampersand the matched substring,
dollar-backquote the text before the match, dollar-quote the text after the
match; any other character (and any unrecognized dollar sequence) is literal. -/
def getSubstitution (matched before after : List Char) : List Char → List Char
  | [] => []
  | c :: rest =>
    if c = dollarChar then
      match rest with
      | [] => [dollarChar]
      | d :: r2 =>
        if d = dollarChar then dollarChar :: getSubstitution matched before after r2
        else if d = ampChar then matched ++ getSubstitution matched before after r2
        else if d = backquoteChar then before ++ getSubstitution matched before after r2
        else if d = singleQuoteChar then after ++ getSubstitution matched before after r2
        else dollarChar :: d :: getSubstitution matched before after r2
    else c :: getSubstitution matched before after rest

/-- JS `s.replace(pat, rep)` with a string search value: only the first
occurrence of `pat` is replaced, and the replacement string is subject to
dollar-pattern substitution. -/
def replaceFirst (s pat rep : List Char) : List Char :=
  match indexOf? pat s with
  | none => s
  | some i =>
    List.take i s
      ++ getSubstitution pat (List.take i s) (List.drop (i + pat.length) s) rep
      ++ List.drop (i + pat.length) s

/-- The placeholder marker for a component directory name:
an HTML comment containing the uppercased name. -/
def placeholder (name : List Char) : List Char :=
  chars "<!-- " ++ name.map Char.toUpper ++ chars " -->"

/-- The placeholder marker built from an already-uppercased word, the common
shape of every placeholder string. -/
def plChars (u : List Char) : List Char :=
  chars "<!-- " ++ u ++ chars " -->"

/-- A word avoiding the placeholder delimiter characters: names built from
such words yield placeholders whose occurrences can never overlap. -/
def plainName (u : List Char) : Bool :=
  u.all fun c => !(c == '<' || c == '>')

/-- One iteration of the `buildHTML` loop: if the component's HTML file
exists, replace its placeholder in the accumulated template. -/
def htmlStep (t : List Char) (c : Component) : List Char :=
  match c.html with
  | some h => replaceFirst t (placeholder c.name) h
  | none => t

/-- `buildHTML` from `build.js`: fold the placeholder substitution over the
component directories in listing order, starting from the template text. -/
def buildHTML (template : List Char) (comps : List Component) : List Char :=
  comps.foldl htmlStep template

/-- The fixed, explicitly ordered core stylesheet list from `buildCSS`. -/
def coreStyleNames : List String :=
  ["variables.css", "reset.css", "typography.css", "layout.css", "utilities.css"]

/-- The fixed, explicitly ordered core script list from `buildJS`. -/
def coreScriptNames : List String := ["utils.js", "main.js"]

/-- The comment banner written before a component's styles. -/
def cssBanner (name : List Char) : List Char :=
  chars "/* " ++ name ++ chars " Component Styles */" ++ [nlChar]

/-- The comment banner written before a component's script. -/
def jsBanner (name : List Char) : List Char :=
  chars "/* " ++ name ++ chars " Component Script */" ++ [nlChar]

/-- One iteration of the core-file loop shared by `buildCSS` and `buildJS`:
append the file's contents and a newline when the file exists. -/
def coreStep (fs : String → Option (List Char)) (acc : List Char) (f : String) : List Char :=
  match fs f with
  | some content => acc ++ content ++ [nlChar]
  | none => acc

/-- One iteration of the component loop of `buildCSS`. -/
def cssStep (acc : List Char) (c : Component) : List Char :=
  match c.css with
  | some content => acc ++ cssBanner c.name ++ content ++ [nlChar]
  | none => acc

/-- One iteration of the component loop of `buildJS`. -/
def jsStep (acc : List Char) (c : Component) : List Char :=
  match c.js with
  | some content => acc ++ jsBanner c.name ++ content ++ [nlChar]
  | none => acc

/-- `buildCSS` generalized over the core filename list: core files first in
list order, then component styles in directory-listing order. `fs` maps a core
filename to its contents when the file exists. -/
def buildCSSList (names : List String) (fs : String → Option (List Char))
    (comps : List Component) : List Char :=
  comps.foldl cssStep (names.foldl (coreStep fs) [])

/-- `buildCSS` from `build.js`. -/
def buildCSS (fs : String → Option (List Char)) (comps : List Component) : List Char :=
  buildCSSList coreStyleNames fs comps

/-- `buildJS` generalized over the core filename list. -/
def buildJSList (names : List String) (fs : String → Option (List Char))
    (comps : List Component) : List Char :=
  comps.foldl jsStep (names.foldl (coreStep fs) [])

/-- `buildJS` from `build.js`. -/
def buildJS (fs : String → Option (List Char)) (comps : List Component) : List Char :=
  buildJSList coreScriptNames fs comps

/-- A directory entry of an asset source directory: a regular file with its
contents, or something that is not a regular file (e.g. a subdirectory). -/
inductive Entry where
  | file (content : List Char)
  | subdir
deriving DecidableEq

/-- Lookup in a destination directory modelled as an association list. -/
def assocGet : List (String × List Char) → String → Option (List Char)
  | [], _ => none
  | (k, v) :: t, n => if k = n then some v else assocGet t n

/-- Write a file into a destination directory: overwrite the entry with the
same name when present, otherwise add the file. -/
def assocSet : List (String × List Char) → String → List Char → List (String × List Char)
  | [], k, v => [(k, v)]
  | (k0, v0) :: t, k, v => if k0 = k then (k, v) :: t else (k0, v0) :: assocSet t k v

/-- The `forEach`/`copyFileSync` loop of `copyAssets` over one source
directory listing: each regular file is copied (overwriting a same-named
destination file); `copyFileSync` on an entry that is not a regular file
throws, aborting the loop with the destination as written so far. -/
def copyDirEntries :
    List (String × Entry) → List (String × List Char) →
      Except (List (String × List Char)) (List (String × List Char))
  | [], dst => .ok dst
  | (n, Entry.file content) :: rest, dst => copyDirEntries rest (assocSet dst n content)
  | (_, Entry.subdir) :: _, dst => .error dst

/-- Copying one optional source directory: when the source directory does not
exist the copy is skipped (the `existsSync` guard in `copyAssets`). -/
def copyDirStage (src : Option (List (String × Entry))) (dst : List (String × List Char)) :
    Except (List (String × List Char)) (List (String × List Char)) :=
  match src with
  | none => .ok dst
  | some entries => copyDirEntries entries dst

/-- The build output directory: the three merged files (absent until written)
and the copied `assets/images` and `assets/fonts` trees. -/
structure BuildDir where
  indexHtml : Option (List Char)
  stylesCss : Option (List Char)
  scriptsJs : Option (List Char)
  images : List (String × List Char)
  fonts : List (String × List Char)
deriving DecidableEq

/-- `copyAssets` from `build.js`: images are copied before fonts; an error
while copying fonts still keeps the images already copied. -/
def copyAssets (images fonts : Option (List (String × Entry))) (bd : BuildDir) :
    Except BuildDir BuildDir :=
  match copyDirStage images bd.images with
  | .error d => .error { bd with images := d }
  | .ok d =>
    match copyDirStage fonts bd.fonts with
    | .error d2 => .error { bd with images := d, fonts := d2 }
    | .ok d2 => .ok { bd with images := d, fonts := d2 }

/-- Fuelled scanner for `replaceAllLit`; each step consumes at least one
character, so fuel equal to the string length always suffices. -/
def replaceAllLitAux (pat rep : List Char) : Nat → List Char → List Char
  | _, [] => []
  | 0, s => s
  | fuel + 1, c :: t =>
    if pat ≠ [] ∧ pat.isPrefixOf (c :: t) then
      rep ++ replaceAllLitAux pat rep fuel (List.drop (pat.length - 1) t)
    else c :: replaceAllLitAux pat rep fuel t

/-- Global replacement of a literal pattern, as a JS global regex made only of
literal characters: scan left to right, replace each non-overlapping
occurrence, continue after the replaced text. -/
def replaceAllLit (pat rep s : List Char) : List Char :=
  replaceAllLitAux pat rep s.length s

/-- Match length at the current position for a regex of the shape
`pre`, then an optional single or double quote, then `post` (the
`url\(['"]?...` patterns of `updateAssetPaths`): the optional quote is
greedy, with backtracking to the empty alternative. -/
def optQuoteLen (pre post s : List Char) : Option Nat :=
  if pre.isPrefixOf s then
    match List.drop pre.length s with
    | c :: r2 =>
      if (c = singleQuoteChar ∨ c = doubleQuoteChar) ∧ post.isPrefixOf r2 then
        some (pre.length + 1 + post.length)
      else if post.isPrefixOf (c :: r2) then some (pre.length + post.length)
      else none
    | [] => if post.isPrefixOf ([] : List Char) then some (pre.length + post.length) else none
  else none

/-- Fuelled scanner for `replaceAllOptQuote`. -/
def replaceAllOptQuoteAux (pre post rep : List Char) : Nat → List Char → List Char
  | _, [] => []
  | 0, s => s
  | fuel + 1, c :: t =>
    match optQuoteLen pre post (c :: t) with
    | some n => rep ++ replaceAllOptQuoteAux pre post rep fuel (List.drop (n - 1) t)
    | none => c :: replaceAllOptQuoteAux pre post rep fuel t

/-- Global replacement for the optional-quote regexes of `updateAssetPaths`. -/
def replaceAllOptQuote (pre post rep s : List Char) : List Char :=
  replaceAllOptQuoteAux pre post rep s.length s

/-- The two HTML rewrites of `updateAssetPaths`, in source order. -/
def updateHTMLPaths (s : List Char) : List Char :=
  replaceAllLit (chars "href=\"core/assets/images/") (chars "href=\"build/assets/images/")
    (replaceAllLit (chars "src=\"core/assets/images/") (chars "src=\"build/assets/images/") s)

/-- The two CSS rewrites of `updateAssetPaths`, in source order: each matches
`url(` followed by an optional single or double quote and the literal asset
prefix, and replaces the whole match with a single-quoted `build/` prefix. -/
def updateCSSPaths (s : List Char) : List Char :=
  replaceAllOptQuote (chars "url(") (chars "core/assets/fonts/")
    (chars "url(" ++ [singleQuoteChar] ++ chars "build/assets/fonts/")
    (replaceAllOptQuote (chars "url(") (chars "core/assets/images/")
      (chars "url(" ++ [singleQuoteChar] ++ chars "build/assets/images/") s)

/-- `updateAssetPaths` from `build.js`: rewrite `build/index.html` and
`build/styles.css` in place when they exist. -/
def updateAssetPaths (bd : BuildDir) : BuildDir :=
  let bd1 :=
    match bd.indexHtml with
    | some h => { bd with indexHtml := some (updateHTMLPaths h) }
    | none => bd
  match bd1.stylesCss with
  | some c => { bd1 with stylesCss := some (updateCSSPaths c) }
  | none => bd1

/-- The whole build input: the optional template file, the component
directories in listing order, the core style/script directories, and the
optional asset source directory listings. -/
structure BuildInput where
  template : Option (List Char)
  comps : List Component
  coreStyles : String → Option (List Char)
  coreScripts : String → Option (List Char)
  images : Option (List (String × Entry))
  fonts : Option (List (String × Entry))

/-- `runBuild` from `build.js` over a prior build-directory state. Reading a
missing template throws inside `buildHTML` before anything is written, so the
run fails with the build directory untouched; a failure inside `copyAssets`
keeps the files written so far. The boolean records whether the run completed. -/
def runBuild (inp : BuildInput) (bd0 : BuildDir) : BuildDir × Bool :=
  match inp.template with
  | none => (bd0, false)
  | some t =>
    let bd1 : BuildDir := { bd0 with indexHtml := some (buildHTML t inp.comps) }
    let bd2 : BuildDir := { bd1 with stylesCss := some (buildCSS inp.coreStyles inp.comps) }
    let bd3 : BuildDir := { bd2 with scriptsJs := some (buildJS inp.coreScripts inp.comps) }
    match copyAssets inp.images inp.fonts bd3 with
    | .error bdE => (bdE, false)
    | .ok bd4 => (updateAssetPaths bd4, true)

/-- Whether every entry of a source directory listing is a regular file. -/
def allFiles (l : List (String × Entry)) : Bool :=
  l.all fun p => match p.2 with | Entry.file _ => true | Entry.subdir => false

/-- `allFiles` for an optional directory (a missing directory is skipped). -/
def allFilesOpt : Option (List (String × Entry)) → Bool
  | none => true
  | some l => allFiles l

/-- Whether an `Except` computation finished normally. -/
def exceptOk {α β : Type} : Except α β → Bool
  | .ok _ => true
  | .error _ => false

/-- The build-directory state after the three merge stages of a run whose
template file is present: the cumulative effect of the `writeFileSync` calls
of `buildHTML`, `buildCSS` and `buildJS`. -/
def mergeOutputs (inp : BuildInput) (t : List Char) (bd0 : BuildDir) : BuildDir :=
  { bd0 with
    indexHtml := some (buildHTML t inp.comps),
    stylesCss := some (buildCSS inp.coreStyles inp.comps),
    scriptsJs := some (buildJS inp.coreScripts inp.comps) }

/-- A tiny complete build input, used as a concrete witness value. -/
def inpW : BuildInput :=
  ⟨some (chars "<!-- A -->"),
    [⟨chars "A", some (chars "hi"), some (chars "a{}"), none⟩],
    (fun f => if f = "reset.css" then some (chars "R") else none),
    (fun _ => none),
    some [("logo.png", Entry.file (chars "P"))],
    none⟩

/-- An empty build-directory state, used as a concrete witness value. -/
def bd0W : BuildDir := ⟨none, none, none, [], []⟩

/-- A build input whose images source directory contains a subdirectory
entry, used as a concrete witness value. -/
def inpSubdirW : BuildInput :=
  ⟨some (chars "t"), [], (fun _ => none), (fun _ => none),
    some [("icons", Entry.subdir)], none⟩

example :
    buildHTML (chars "<p><!-- A --></p>")
      [⟨chars "A", some (chars "hi"), none, none⟩] = chars "<p>hi</p>" := by decide

example :
    buildHTML (chars "<!-- A --><!-- A -->")
      [⟨chars "A", some (chars "x"), none, none⟩] = chars "x<!-- A -->" := by decide

example :
    buildHTML (chars "<!-- A -->")
      [⟨chars "A", some (chars "$&"), none, none⟩] = chars "<!-- A -->" := by decide

example :
    updateCSSPaths (chars "url(core/assets/images/x.png)")
      = chars "url(" ++ [singleQuoteChar] ++ chars "build/assets/images/x.png)" := by decide

example :
    updateCSSPaths (chars "url(\"core/assets/fonts/f.woff\")")
      = chars "url(" ++ [singleQuoteChar] ++ chars "build/assets/fonts/f.woff\")" := by decide

example :
    updateHTMLPaths (chars "<img src=\"core/assets/images/logo.png\">")
      = chars "<img src=\"build/assets/images/logo.png\">" := by decide

example :
    updateHTMLPaths (chars "<img src=\"core/assets/images-extra/x.png\">")
      = chars "<img src=\"core/assets/images-extra/x.png\">" := by decide

example :
    buildCSS (fun f => if f = "reset.css" then some (chars "R") else none)
      [⟨chars "A", none, some (chars "a{}"), none⟩]
      = chars "R" ++ [nlChar] ++ chars "/* A Component Styles */"
        ++ [nlChar] ++ chars "a{}" ++ [nlChar] := by decide

example :
    buildHTML (chars "<!-- A -->")
      [⟨chars "A", some (chars "<!-- B -->"), none, none⟩,
       ⟨chars "B", some (chars "x"), none, none⟩] = chars "x" := by decide

example :
    (runBuild
      ⟨some (chars "t"), [], fun _ => none, fun _ => none,
        some [("a.png", Entry.file (chars "P"))], none⟩
      ⟨none, none, none, [], []⟩).2 = true := by rfl

example :
    (runBuild
      ⟨some (chars "t"), [], fun _ => none, fun _ => none,
        some [("sub", Entry.subdir)], none⟩
      ⟨none, none, none, [], []⟩).2 = false := by rfl

/-! ## String-search infrastructure lemmas -/

theorem occursIn_cons (pat : List Char) (c : Char) (t : List Char) :
    occursIn pat (c :: t) = (pat.isPrefixOf (c :: t) || occursIn pat t) := by
  simp only [occursIn, indexOf?]
  by_cases h : pat.isPrefixOf (c :: t) <;> simp [h]

theorem indexOf?_eq_some_zero (pat s : List Char) (h : pat.isPrefixOf s = true) :
    indexOf? pat s = some 0 := by
  cases s <;> simp [indexOf?, h]

theorem indexOf?_eq_none_of_occursIn_false (pat s : List Char)
    (h : occursIn pat s = false) : indexOf? pat s = none := by
  unfold occursIn at h
  cases h' : indexOf? pat s with
  | none => rfl
  | some i => rw [h'] at h; simp at h

theorem replaceFirst_not_occurs (s pat rep : List Char)
    (h : occursIn pat s = false) : replaceFirst s pat rep = s := by
  unfold replaceFirst
  rw [indexOf?_eq_none_of_occursIn_false pat s h]

theorem getSubstitution_no_dollar (matched before after rep : List Char)
    (h : dollarChar ∉ rep) : getSubstitution matched before after rep = rep := by
  induction rep with
  | nil => rfl
  | cons c rest ih =>
    have hc : c ≠ dollarChar := fun hc => h (hc ▸ List.mem_cons_self c rest)
    have hrest : dollarChar ∉ rest := fun hm => h (List.mem_cons_of_mem c hm)
    unfold getSubstitution
    rw [if_neg hc, ih hrest]

theorem indexOf?_first (pat b : List Char) :
    ∀ a : List Char,
      (∀ i, i < a.length → pat.isPrefixOf (List.drop i (a ++ pat ++ b)) = false) →
      indexOf? pat (a ++ pat ++ b) = some a.length := by
  intro a
  induction a with
  | nil =>
    intro _
    have hpre : pat.isPrefixOf (pat ++ b) = true := by
      rw [List.isPrefixOf_iff_prefix]
      exact List.prefix_append pat b
    simpa using indexOf?_eq_some_zero pat (pat ++ b) hpre
  | cons x a' ih =>
    intro h
    have h0 : pat.isPrefixOf (x :: (a' ++ pat ++ b)) = false := by
      have := h 0 (by simp)
      simpa using this
    have hrest : ∀ i, i < a'.length →
        pat.isPrefixOf (List.drop i (a' ++ pat ++ b)) = false := by
      intro i hi
      have := h (i + 1) (by simp; omega)
      simpa using this
    have e : indexOf? pat ((x :: a') ++ pat ++ b)
        = (indexOf? pat (a' ++ pat ++ b)).map (fun i => i + 1) := by
      show (if pat.isPrefixOf (x :: (a' ++ pat ++ b)) = true then some 0
          else (indexOf? pat (a' ++ pat ++ b)).map (fun i => i + 1))
        = (indexOf? pat (a' ++ pat ++ b)).map (fun i => i + 1)
      rw [h0]
      simp
    rw [e, ih hrest]
    simp

theorem replaceFirst_first (pat a b rep : List Char)
    (h : ∀ i, i < a.length → pat.isPrefixOf (List.drop i (a ++ pat ++ b)) = false) :
    replaceFirst (a ++ pat ++ b) pat rep = a ++ getSubstitution pat a b rep ++ b := by
  unfold replaceFirst
  rw [indexOf?_first pat b a h]
  show List.take a.length (a ++ pat ++ b)
      ++ getSubstitution pat (List.take a.length (a ++ pat ++ b))
          (List.drop (a.length + pat.length) (a ++ pat ++ b)) rep
      ++ List.drop (a.length + pat.length) (a ++ pat ++ b)
    = a ++ getSubstitution pat a b rep ++ b
  have htake : List.take a.length (a ++ pat ++ b) = a := by
    rw [List.append_assoc]
    exact List.take_left a (pat ++ b)
  have hdrop : List.drop (a.length + pat.length) (a ++ pat ++ b) = b := by
    have : a.length + pat.length = (a ++ pat).length := by simp
    rw [this]
    exact List.drop_left (a ++ pat) b
  rw [htake, hdrop]

/-! ## Fold-to-concatenation infrastructure -/

theorem foldl_append_flatten {α : Type} (step : List Char → α → List Char)
    (piece : α → List Char) (hstep : ∀ acc x, step acc x = acc ++ piece x) :
    ∀ (l : List α) (init : List Char),
      l.foldl step init = init ++ (l.map piece).flatten := by
  intro l
  induction l with
  | nil => intro init; simp
  | cons x t ih =>
    intro init
    simp only [List.foldl_cons, List.map_cons, List.flatten_cons]
    rw [hstep, ih, List.append_assoc]

theorem flatten_map_getD {α : Type} (h : α → Option (List Char)) (l : List α) :
    (l.map fun x => (h x).getD []).flatten = (l.filterMap h).flatten := by
  induction l with
  | nil => rfl
  | cons x t ih =>
    cases hx : h x <;> simp [List.filterMap_cons, hx, ih]

theorem foldl_skip {α : Type} (step : List Char → α → List Char) (x : α)
    (hx : ∀ acc, step acc x = acc) (l1 l2 : List α) (init : List Char) :
    (l1 ++ x :: l2).foldl step init = (l1 ++ l2).foldl step init := by
  rw [List.foldl_append, List.foldl_append, List.foldl_cons, hx]

/-! ## Global-replacement lemmas -/

theorem isPrefixOf_append_eq (p q : List Char) :
    ∀ s : List Char,
      (p ++ q).isPrefixOf s = (p.isPrefixOf s && q.isPrefixOf (List.drop p.length s)) := by
  induction p with
  | nil => intro s; simp [List.isPrefixOf]
  | cons c p' ih =>
    intro s
    cases s with
    | nil => simp [List.isPrefixOf]
    | cons d t =>
      simp only [List.cons_append, List.isPrefixOf, List.length_cons, List.drop_succ_cons,
        List.append_eq, ih t, Bool.and_assoc]

theorem occursIn_false_elim (pat : List Char) (c : Char) (t : List Char)
    (h : occursIn pat (c :: t) = false) :
    pat.isPrefixOf (c :: t) = false ∧ occursIn pat t = false := by
  have hc := occursIn_cons pat c t
  rw [h] at hc
  exact ⟨(Bool.or_eq_false_iff.mp hc.symm).1, (Bool.or_eq_false_iff.mp hc.symm).2⟩

theorem replaceAllLitAux_not_occurs (pat rep : List Char) :
    ∀ (fuel : Nat) (s : List Char),
      occursIn pat s = false → replaceAllLitAux pat rep fuel s = s := by
  intro fuel
  induction fuel with
  | zero => intro s _; cases s <;> rfl
  | succ f ih =>
    intro s h
    cases s with
    | nil => rfl
    | cons c t =>
      obtain ⟨h1, h2⟩ := occursIn_false_elim pat c t h
      unfold replaceAllLitAux
      rw [if_neg (by simp [h1]), ih t h2]

theorem replaceAllLit_not_occurs (pat rep s : List Char)
    (h : occursIn pat s = false) : replaceAllLit pat rep s = s :=
  replaceAllLitAux_not_occurs pat rep s.length s h

theorem optQuoteLen_none (pre post s : List Char)
    (h1 : (pre ++ post).isPrefixOf s = false)
    (h2 : (pre ++ singleQuoteChar :: post).isPrefixOf s = false)
    (h3 : (pre ++ doubleQuoteChar :: post).isPrefixOf s = false) :
    optQuoteLen pre post s = none := by
  unfold optQuoteLen
  by_cases hp : pre.isPrefixOf s
  · rw [isPrefixOf_append_eq, hp, Bool.true_and] at h1 h2 h3
    simp only [hp, if_true]
    cases hr : List.drop pre.length s with
    | nil =>
      rw [hr] at h1
      simp [h1]
    | cons c r2 =>
      rw [hr] at h1 h2 h3
      simp only [List.isPrefixOf] at h2 h3
      have hq : ¬ ((c = singleQuoteChar ∨ c = doubleQuoteChar) ∧ post.isPrefixOf r2 = true) := by
        rintro ⟨hc | hc, hpost⟩
        · subst hc
          simp [hpost] at h2
        · subst hc
          simp [hpost] at h3
      show (if (c = singleQuoteChar ∨ c = doubleQuoteChar) ∧ post.isPrefixOf r2 = true then
            some (pre.length + 1 + post.length)
          else if post.isPrefixOf (c :: r2) = true then some (pre.length + post.length)
          else none) = none
      rw [if_neg hq]
      simp [h1]
  · simp [hp]

theorem replaceAllOptQuoteAux_not_occurs (pre post rep : List Char) :
    ∀ (fuel : Nat) (s : List Char),
      occursIn (pre ++ post) s = false →
      occursIn (pre ++ singleQuoteChar :: post) s = false →
      occursIn (pre ++ doubleQuoteChar :: post) s = false →
      replaceAllOptQuoteAux pre post rep fuel s = s := by
  intro fuel
  induction fuel with
  | zero => intro s _ _ _; cases s <;> rfl
  | succ f ih =>
    intro s h1 h2 h3
    cases s with
    | nil => rfl
    | cons c t =>
      obtain ⟨h1a, h1b⟩ := occursIn_false_elim _ c t h1
      obtain ⟨h2a, h2b⟩ := occursIn_false_elim _ c t h2
      obtain ⟨h3a, h3b⟩ := occursIn_false_elim _ c t h3
      unfold replaceAllOptQuoteAux
      rw [optQuoteLen_none pre post (c :: t) h1a h2a h3a, ih t h1b h2b h3b]

theorem replaceAllOptQuote_not_occurs (pre post rep s : List Char)
    (h1 : occursIn (pre ++ post) s = false)
    (h2 : occursIn (pre ++ singleQuoteChar :: post) s = false)
    (h3 : occursIn (pre ++ doubleQuoteChar :: post) s = false) :
    replaceAllOptQuote pre post rep s = s :=
  replaceAllOptQuoteAux_not_occurs pre post rep s.length s h1 h2 h3

/-! ## Placeholder-occurrence preservation

A placeholder built from a delimiter-free word can never overlap a different
such placeholder, so replacing one placeholder cannot destroy an occurrence
of another. -/

theorem placeholder_eq_plChars (name : List Char) :
    placeholder name = plChars (name.map Char.toUpper) := rfl

theorem plainName_spec (u : List Char) (h : plainName u = true) :
    '<' ∉ u ∧ '>' ∉ u := by
  unfold plainName at h
  rw [List.all_eq_true] at h
  constructor <;> intro hm <;> have hx := h _ hm <;> simp at hx

theorem occursIn_nil_eq (pat : List Char) :
    occursIn pat [] = pat.isPrefixOf ([] : List Char) := by
  unfold occursIn indexOf?
  by_cases h : pat.isPrefixOf ([] : List Char) <;> simp [h]

theorem occursIn_iff_exists_drop (pat : List Char) :
    ∀ s : List Char,
      occursIn pat s = true ↔ ∃ p, pat.isPrefixOf (List.drop p s) = true := by
  intro s
  induction s with
  | nil =>
    rw [occursIn_nil_eq]
    constructor
    · intro h
      exact ⟨0, h⟩
    · rintro ⟨p, hp⟩
      rw [List.drop_nil] at hp
      exact hp
  | cons c t ih =>
    rw [occursIn_cons, Bool.or_eq_true]
    constructor
    · rintro (h | h)
      · exact ⟨0, h⟩
      · obtain ⟨p, hp⟩ := ih.mp h
        exact ⟨p + 1, hp⟩
    · rintro ⟨p, hp⟩
      cases p with
      | zero => exact Or.inl hp
      | succ q =>
        rw [List.drop_succ_cons] at hp
        exact Or.inr (ih.mpr ⟨q, hp⟩)

theorem indexOf?_some_startsAt (pat : List Char) :
    ∀ (s : List Char) (i : Nat), indexOf? pat s = some i →
      pat.isPrefixOf (List.drop i s) = true := by
  intro s
  induction s with
  | nil =>
    intro i h
    unfold indexOf? at h
    by_cases hp : pat.isPrefixOf ([] : List Char)
    · rw [if_pos hp] at h
      injection h with h'
      rw [← h']
      simpa using hp
    · rw [if_neg hp] at h
      exact absurd h (by simp)
  | cons c t ih =>
    intro i h
    unfold indexOf? at h
    by_cases hp : pat.isPrefixOf (c :: t)
    · rw [if_pos hp] at h
      injection h with h'
      rw [← h']
      simpa using hp
    · rw [if_neg hp] at h
      cases hidx : indexOf? pat t with
      | none =>
        rw [hidx] at h
        exact absurd h (by simp)
      | some j =>
        rw [hidx] at h
        rw [show Option.map (fun i => i + 1) (some j) = some (j + 1) from rfl] at h
        injection h with h'
        rw [← h', List.drop_succ_cons]
        exact ih j hidx

theorem occursIn_append_left (pat a b : List Char) (h : occursIn pat a = true) :
    occursIn pat (a ++ b) = true := by
  rw [occursIn_iff_exists_drop] at h ⊢
  obtain ⟨p, hp⟩ := h
  refine ⟨p, ?_⟩
  rw [List.isPrefixOf_iff_prefix] at hp ⊢
  rw [List.drop_append_eq_append_drop]
  exact hp.trans (List.prefix_append ..)

theorem occursIn_append_right (pat a b : List Char) (h : occursIn pat b = true) :
    occursIn pat (a ++ b) = true := by
  rw [occursIn_iff_exists_drop] at h ⊢
  obtain ⟨p, hp⟩ := h
  refine ⟨a.length + p, ?_⟩
  rw [List.isPrefixOf_iff_prefix] at hp ⊢
  rw [List.drop_append_eq_append_drop]
  have h1 : List.drop (a.length + p) a = [] := List.drop_eq_nil_of_le (by omega)
  have h2 : a.length + p - a.length = p := by omega
  rw [h1, h2]
  simpa using hp

theorem plChars_ne_nil (v : List Char) : plChars v ≠ [] := by
  unfold plChars
  intro h
  have h5 : chars "<!-- " = [] := (List.append_eq_nil.mp (List.append_eq_nil.mp h).1).1
  exact absurd h5 (by decide)

theorem plChars_head (v : List Char) : (plChars v).head? = some '<' := by
  unfold plChars
  rw [List.head?_append_of_ne_nil _
    (fun h => absurd (List.append_eq_nil.mp h).1 (by decide)),
    List.head?_append_of_ne_nil _ (by decide)]
  decide

theorem plChars_lt_not_mem_drop_one (v : List Char) (hv : plainName v = true) :
    '<' ∉ List.drop 1 (plChars v) := by
  unfold plChars
  have h5 : (1 : Nat) ≤ (chars "<!-- " ++ v).length := by
    simp only [List.length_append]
    have h5' : (chars "<!-- ").length = 5 := by decide
    omega
  rw [List.drop_append_of_le_length h5,
    List.drop_append_of_le_length (by decide : (1 : Nat) ≤ (chars "<!-- ").length)]
  intro hmem
  rcases List.mem_append.mp hmem with h1 | h2
  · rcases List.mem_append.mp h1 with h3 | h4
    · exact absurd h3 (by decide)
    · exact (plainName_spec v hv).1 h4
  · exact absurd h2 (by decide)

theorem gt_mem_plChars (u : List Char) : '>' ∈ plChars u := by
  unfold plChars
  exact List.mem_append.mpr (Or.inr (by decide))

theorem plChars_dropLast (v : List Char) :
    (plChars v).dropLast = chars "<!-- " ++ v ++ chars " --" := by
  have h4 : plChars v = (chars "<!-- " ++ v ++ chars " --") ++ ['>'] := by
    unfold plChars
    have he : chars " -->" = chars " --" ++ ['>'] := by decide
    rw [he, ← List.append_assoc]
  rw [h4, List.dropLast_concat]

theorem gt_not_mem_plChars_dropLast (v : List Char) (hv : plainName v = true) :
    '>' ∉ (plChars v).dropLast := by
  rw [plChars_dropLast]
  intro hmem
  rcases List.mem_append.mp hmem with h1 | h2
  · rcases List.mem_append.mp h1 with h3 | h4
    · exact absurd h3 (by decide)
    · exact (plainName_spec v hv).2 h4
  · exact absurd h2 (by decide)

theorem plChars_inj (u v : List Char) (h : plChars u = plChars v) : u = v := by
  unfold plChars at h
  exact List.append_cancel_left (List.append_cancel_right h)

theorem plChars_not_proper_prefix (u v : List Char) (hv : plainName v = true)
    (h : plChars u <+: plChars v) (hne : plChars u ≠ plChars v) : False := by
  have hlt : (plChars u).length < (plChars v).length :=
    lt_of_le_of_ne h.length_le (fun he => hne (h.eq_of_length he))
  have hdl : plChars u <+: (plChars v).dropLast := by
    rw [List.dropLast_eq_take, List.prefix_take_iff]
    exact ⟨h, by omega⟩
  exact gt_not_mem_plChars_dropLast v hv (hdl.subset (gt_mem_plChars u))

theorem plChars_no_inner_start (u v : List Char) (hu : plainName u = true)
    (s' : List Char) (k : Nat) (hk1 : 1 ≤ k) (hk2 : k < (plChars u).length)
    (hP : plChars u <+: s') (hQ : plChars v <+: List.drop k s') : False := by
  obtain ⟨ext, hext⟩ := hP
  subst hext
  rw [List.drop_append_of_le_length (Nat.le_of_lt hk2)] at hQ
  have hne : (plChars u).drop k ≠ [] := by
    intro hnil
    have hlen := congrArg List.length hnil
    simp only [List.length_drop, List.length_nil] at hlen
    omega
  obtain ⟨c, tl, hct⟩ := List.exists_cons_of_ne_nil hne
  obtain ⟨ext2, hext2⟩ := hQ
  have hhead : ((plChars u).drop k ++ ext).head? = some '<' := by
    rw [← hext2, List.head?_append_of_ne_nil _ (plChars_ne_nil v), plChars_head]
  rw [hct] at hhead
  simp only [List.cons_append, List.head?_cons, Option.some.injEq] at hhead
  have hcmem : '<' ∈ (plChars u).drop k := by
    rw [hct, ← hhead]
    exact List.mem_cons_self c tl
  have hdropped : '<' ∈ List.drop 1 (plChars u) := by
    have hkk : List.drop k (plChars u) = List.drop (k - 1) (List.drop 1 (plChars u)) := by
      rw [List.drop_drop]
      congr 1
      omega
    rw [hkk] at hcmem
    exact List.mem_of_mem_drop hcmem
  exact plChars_lt_not_mem_drop_one u hu hdropped

theorem plChars_no_overlap (u v s : List Char) (p i : Nat)
    (hu : plainName u = true) (hv : plainName v = true) (huv : u ≠ v)
    (hp : plChars u <+: List.drop p s) (hi : plChars v <+: List.drop i s) :
    p + (plChars u).length ≤ i ∨ i + (plChars v).length ≤ p := by
  by_contra hcon
  push_neg at hcon
  obtain ⟨hlt1, hlt2⟩ := hcon
  rcases Nat.lt_trichotomy p i with hpi | hpi | hpi
  · have hk : List.drop i s = List.drop (i - p) (List.drop p s) := by
      rw [List.drop_drop]
      congr 1
      omega
    rw [hk] at hi
    exact plChars_no_inner_start u v hu (List.drop p s) (i - p)
      (by omega) (by omega) hp hi
  · subst hpi
    rcases List.prefix_or_prefix_of_prefix hp hi with hc | hc
    · by_cases he : plChars u = plChars v
      · exact huv (plChars_inj u v he)
      · exact plChars_not_proper_prefix u v hv hc he
    · by_cases he : plChars v = plChars u
      · exact huv (plChars_inj u v he.symm)
      · exact plChars_not_proper_prefix v u hu hc he
  · have hk : List.drop p s = List.drop (p - i) (List.drop i s) := by
      rw [List.drop_drop]
      congr 1
      omega
    rw [hk] at hp
    exact plChars_no_inner_start v u hv (List.drop i s) (p - i)
      (by omega) (by omega) hi hp

theorem replaceFirst_preserves_plChars (u v rep s : List Char)
    (hu : plainName u = true) (hv : plainName v = true) (huv : u ≠ v)
    (hocc : occursIn (plChars u) s = true) :
    occursIn (plChars u) (replaceFirst s (plChars v) rep) = true := by
  unfold replaceFirst
  cases hidx : indexOf? (plChars v) s with
  | none => exact hocc
  | some i =>
    obtain ⟨p, hp⟩ := (occursIn_iff_exists_drop (plChars u) s).mp hocc
    have hpP : plChars u <+: List.drop p s := List.isPrefixOf_iff_prefix.mp hp
    have hiQ : plChars v <+: List.drop i s :=
      List.isPrefixOf_iff_prefix.mp (indexOf?_some_startsAt (plChars v) s i hidx)
    rcases plChars_no_overlap u v s p i hu hv huv hpP hiQ with hle | hle
    · apply occursIn_append_left
      apply occursIn_append_left
      rw [occursIn_iff_exists_drop]
      refine ⟨p, ?_⟩
      rw [List.isPrefixOf_iff_prefix, List.drop_take, List.prefix_take_iff]
      exact ⟨hpP, by omega⟩
    · apply occursIn_append_right
      rw [occursIn_iff_exists_drop]
      refine ⟨p - (i + (plChars v).length), ?_⟩
      rw [List.isPrefixOf_iff_prefix, List.drop_drop]
      have harith : i + (plChars v).length + (p - (i + (plChars v).length)) = p := by
        omega
      rw [harith]
      exact hpP

theorem buildHTML_preserves_plChars (u : List Char) (hu : plainName u = true) :
    ∀ (comps : List Component) (acc : List Char),
      (∀ d ∈ comps, d.html = none ∨
        (plainName (List.map Char.toUpper d.name) = true ∧
          List.map Char.toUpper d.name ≠ u)) →
      occursIn (plChars u) acc = true →
      occursIn (plChars u) (List.foldl htmlStep acc comps) = true := by
  intro comps
  induction comps with
  | nil => intro acc _ hocc; exact hocc
  | cons d rest ih =>
    intro acc hcomps hocc
    rw [List.foldl_cons]
    apply ih _ (fun d' hd' => hcomps d' (List.mem_cons_of_mem d hd'))
    have hd := hcomps d (List.mem_cons_self d rest)
    unfold htmlStep
    cases hdh : d.html with
    | none => exact hocc
    | some h =>
      rcases hd with hnone | ⟨hplain, hne⟩
      · rw [hdh] at hnone
        exact absurd hnone (by simp)
      · rw [placeholder_eq_plChars]
        exact replaceFirst_preserves_plChars u _ h acc hu hplain
          (fun he => hne he.symm) hocc

/-! ## Asset-copy lemmas -/

theorem assocGet_set_self (k : String) (v : List Char) :
    ∀ l : List (String × List Char), assocGet (assocSet l k v) k = some v := by
  intro l
  induction l with
  | nil => simp [assocSet, assocGet]
  | cons p t ih =>
    obtain ⟨k0, v0⟩ := p
    by_cases hk : k0 = k
    · simp [assocSet, hk, assocGet]
    · simp [assocSet, hk, assocGet, ih]

theorem assocGet_set_ne (k k' : String) (v : List Char) (hne : k' ≠ k) :
    ∀ l : List (String × List Char), assocGet (assocSet l k v) k' = assocGet l k' := by
  intro l
  induction l with
  | nil =>
    have hkk : k ≠ k' := fun h => hne h.symm
    simp [assocSet, assocGet, hkk]
  | cons p t ih =>
    obtain ⟨k0, v0⟩ := p
    by_cases hk : k0 = k
    · subst hk
      have hkk : k0 ≠ k' := fun h => hne h.symm
      simp [assocSet, assocGet, hkk]
    · simp [assocSet, hk, assocGet, ih]

theorem copyDirEntries_spec :
    ∀ (l : List (String × Entry)) (dst : List (String × List Char)),
      allFiles l = true → (l.map Prod.fst).Nodup →
      ∃ d, copyDirEntries l dst = .ok d ∧
        (∀ n c, (n, Entry.file c) ∈ l → assocGet d n = some c) ∧
        (∀ n, n ∉ l.map Prod.fst → assocGet d n = assocGet dst n) := by
  intro l
  induction l with
  | nil =>
    intro dst _ _
    exact ⟨dst, rfl, by simp, fun n _ => rfl⟩
  | cons p rest ih =>
    intro dst hall hnd
    obtain ⟨m, e⟩ := p
    cases e with
    | subdir => simp [allFiles] at hall
    | file cc =>
      have hallr : allFiles rest = true := by
        simp only [allFiles, List.all_cons, Bool.and_eq_true] at hall
        exact hall.2
      have hndr : (rest.map Prod.fst).Nodup := (List.nodup_cons.mp hnd).2
      have hmne : m ∉ rest.map Prod.fst := (List.nodup_cons.mp hnd).1
      obtain ⟨d, hd, hmem, hother⟩ := ih (assocSet dst m cc) hallr hndr
      refine ⟨d, ?_, ?_, ?_⟩
      · simpa [copyDirEntries] using hd
      · intro n c hnc
        rcases List.mem_cons.mp hnc with heq | hmemr
        · have hn : n = m := congrArg Prod.fst heq
          have hc : c = cc := by
            have := congrArg Prod.snd heq
            injection this
          subst hn
          subst hc
          rw [hother n hmne, assocGet_set_self]
        · exact hmem n c hmemr
      · intro n hn
        have hn1 : n ≠ m := fun h => hn (by simp [h])
        have hn2 : n ∉ rest.map Prod.fst := fun h => hn (by simp [h])
        rw [hother n hn2, assocGet_set_ne m n cc hn1]

theorem copyDirEntries_isOk :
    ∀ (l : List (String × Entry)) (dst : List (String × List Char)),
      exceptOk (copyDirEntries l dst) = allFiles l := by
  intro l
  induction l with
  | nil => intro dst; rfl
  | cons p rest ih =>
    intro dst
    obtain ⟨m, e⟩ := p
    cases e with
    | file cc => simp [copyDirEntries, allFiles, ih, List.all_cons]
    | subdir => simp [copyDirEntries, exceptOk, allFiles]

theorem copyDirStage_isOk (src : Option (List (String × Entry)))
    (dst : List (String × List Char)) :
    exceptOk (copyDirStage src dst) = allFilesOpt src := by
  cases src with
  | none => rfl
  | some l => exact copyDirEntries_isOk l dst

theorem copyAssets_isOk (images fonts : Option (List (String × Entry))) (bd : BuildDir) :
    exceptOk (copyAssets images fonts bd) = (allFilesOpt images && allFilesOpt fonts) := by
  unfold copyAssets
  have hi := copyDirStage_isOk images bd.images
  cases h1 : copyDirStage images bd.images with
  | error d =>
    rw [h1] at hi
    simp only [exceptOk] at hi ⊢
    rw [← hi]
    simp
  | ok d =>
    rw [h1] at hi
    simp only [exceptOk] at hi
    have hf := copyDirStage_isOk fonts bd.fonts
    cases h2 : copyDirStage fonts bd.fonts with
    | error d2 =>
      rw [h2] at hf
      simp only [exceptOk] at hf ⊢
      rw [← hi, ← hf]
      simp
    | ok d2 =>
      rw [h2] at hf
      simp only [exceptOk] at hf ⊢
      rw [← hi, ← hf]
      simp

theorem copyAssets_ok_fields (images fonts : Option (List (String × Entry)))
    (bd bd' : BuildDir) (h : copyAssets images fonts bd = .ok bd') :
    bd'.indexHtml = bd.indexHtml ∧ bd'.stylesCss = bd.stylesCss ∧
      bd'.scriptsJs = bd.scriptsJs := by
  unfold copyAssets at h
  cases h1 : copyDirStage images bd.images with
  | error d => rw [h1] at h; exact absurd h (by simp)
  | ok d =>
    rw [h1] at h
    cases h2 : copyDirStage fonts bd.fonts with
    | error d2 => rw [h2] at h; exact absurd h (by simp)
    | ok d2 =>
      rw [h2] at h
      have : ({ bd with images := d, fonts := d2 } : BuildDir) = bd' := by
        injection h
      rw [← this]
      exact ⟨rfl, rfl, rfl⟩

theorem updateAssetPaths_fields (bd : BuildDir) (h c : List Char)
    (hh : bd.indexHtml = some h) (hc : bd.stylesCss = some c) :
    (updateAssetPaths bd).indexHtml = some (updateHTMLPaths h) ∧
    (updateAssetPaths bd).stylesCss = some (updateCSSPaths c) ∧
    (updateAssetPaths bd).scriptsJs = bd.scriptsJs := by
  unfold updateAssetPaths
  rw [hh]
  simp [hc]

theorem runBuild_none (inp : BuildInput) (bd0 : BuildDir)
    (ht : inp.template = none) : runBuild inp bd0 = (bd0, false) := by
  unfold runBuild
  rw [ht]

theorem runBuild_some (inp : BuildInput) (t : List Char) (bd0 : BuildDir)
    (ht : inp.template = some t) :
    runBuild inp bd0 =
      (match copyAssets inp.images inp.fonts (mergeOutputs inp t bd0) with
        | .error bdE => (bdE, false)
        | .ok bd4 => (updateAssetPaths bd4, true)) := by
  unfold runBuild
  rw [ht]
  rfl

theorem mergeOutputs_fields (inp : BuildInput) (t : List Char) (bd0 : BuildDir) :
    (mergeOutputs inp t bd0).indexHtml = some (buildHTML t inp.comps) ∧
    (mergeOutputs inp t bd0).stylesCss = some (buildCSS inp.coreStyles inp.comps) ∧
    (mergeOutputs inp t bd0).scriptsJs = some (buildJS inp.coreScripts inp.comps) :=
  ⟨rfl, rfl, rfl⟩

/-- Everything a completed run determines about the three merged outputs:
they are functions of the build input alone. -/
theorem runBuild_ok_outputs (inp : BuildInput) (bd : BuildDir) (bd' : BuildDir)
    (hrun : runBuild inp bd = (bd', true)) :
    ∃ t, inp.template = some t ∧
      bd'.indexHtml = some (updateHTMLPaths (buildHTML t inp.comps)) ∧
      bd'.stylesCss = some (updateCSSPaths (buildCSS inp.coreStyles inp.comps)) ∧
      bd'.scriptsJs = some (buildJS inp.coreScripts inp.comps) := by
  cases ht : inp.template with
  | none =>
    rw [runBuild_none inp bd ht] at hrun
    exact absurd (congrArg Prod.snd hrun) (by simp)
  | some t =>
    rw [runBuild_some inp t bd ht] at hrun
    refine ⟨t, rfl, ?_⟩
    cases hca : copyAssets inp.images inp.fonts (mergeOutputs inp t bd) with
    | error bdE =>
      rw [hca] at hrun
      exact absurd (congrArg Prod.snd hrun) (by simp)
    | ok bd4 =>
      rw [hca] at hrun
      have hbd' : bd' = updateAssetPaths bd4 := (congrArg Prod.fst hrun).symm
      obtain ⟨f1, f2, f3⟩ :=
        copyAssets_ok_fields inp.images inp.fonts (mergeOutputs inp t bd) bd4 hca
      obtain ⟨m1, m2, m3⟩ := mergeOutputs_fields inp t bd
      obtain ⟨g1, g2, g3⟩ := updateAssetPaths_fields bd4
        (buildHTML t inp.comps) (buildCSS inp.coreStyles inp.comps)
        (by rw [f1, m1]) (by rw [f2, m2])
      subst hbd'
      exact ⟨g1, g2, by rw [g3, f3, m3]⟩

/-- Success of a run depends only on the build input, never on the prior
state of the build directory. -/
theorem runBuild_isOk (inp : BuildInput) (bd : BuildDir) :
    (runBuild inp bd).2
      = (inp.template.isSome && (allFilesOpt inp.images && allFilesOpt inp.fonts)) := by
  cases ht : inp.template with
  | none => rw [runBuild_none inp bd ht]; rfl
  | some t =>
    rw [runBuild_some inp t bd ht]
    have hca := copyAssets_isOk inp.images inp.fonts (mergeOutputs inp t bd)
    cases hc : copyAssets inp.images inp.fonts (mergeOutputs inp t bd) with
    | error bdE =>
      rw [hc] at hca
      simp only [exceptOk] at hca
      simp [← hca]
    | ok bd4 =>
      rw [hc] at hca
      simp only [exceptOk] at hca
      simp [← hca]

/-! ## Claim C1 -/

/-- Claim C1 counterexample: with the placeholder occurring twice in the
template and the component present, only the first occurrence is replaced —
the merged HTML still contains the placeholder, refuting the claim that every
occurrence is replaced. -/
theorem C1_counterexample :
    buildHTML (chars "<!-- A --><!-- A -->")
        [⟨chars "A", some (chars "x"), none, none⟩]
      = chars "x<!-- A -->" ∧
    occursIn (placeholder (chars "A"))
      (buildHTML (chars "<!-- A --><!-- A -->")
        [⟨chars "A", some (chars "x"), none, none⟩]) = true := by
  decide

/-- Claim C1 (amended): for a component whose lowercase-named HTML file
exists, `buildHTML` replaces only the FIRST occurrence of the placeholder
`<!-- NAME -->` with the component's HTML content (here dollar-free); any
later occurrences of the placeholder survive literally in the part of the
template after the replaced occurrence. -/
theorem C1_first_occurrence_only (a b h name : List Char)
    (hfirst : ∀ i, i < a.length →
      (placeholder name).isPrefixOf (List.drop i (a ++ placeholder name ++ b)) = false)
    (hd : dollarChar ∉ h) :
    buildHTML (a ++ placeholder name ++ b) [⟨name, some h, none, none⟩]
      = a ++ h ++ b := by
  show replaceFirst (a ++ placeholder name ++ b) (placeholder name) h = a ++ h ++ b
  rw [replaceFirst_first (placeholder name) a b h hfirst,
    getSubstitution_no_dollar _ _ _ _ hd]

/-- Witness for C1 at a concrete input. -/
theorem C1_first_occurrence_only_witness :
    (∀ i, i < (chars "x").length →
      (placeholder (chars "A")).isPrefixOf
        (List.drop i (chars "x" ++ placeholder (chars "A") ++ chars "y<!-- A -->")) = false) ∧
    dollarChar ∉ chars "hi" ∧
    buildHTML (chars "x" ++ placeholder (chars "A") ++ chars "y<!-- A -->")
        [⟨chars "A", some (chars "hi"), none, none⟩]
      = chars "x" ++ chars "hi" ++ chars "y<!-- A -->" :=
  ⟨by decide, by decide,
    C1_first_occurrence_only (chars "x") (chars "y<!-- A -->") (chars "hi") (chars "A")
      (by decide) (by decide)⟩

/-! ## Claim C2 -/

/-- Claim C2 counterexample: component HTML content consisting of the two
characters dollar-ampersand is not inserted byte for byte — JS string
replacement expands it to the matched placeholder, so the output is the
placeholder itself, not the file contents. -/
theorem C2_counterexample :
    buildHTML (chars "<!-- A -->") [⟨chars "A", some (chars "$&"), none, none⟩]
      = chars "<!-- A -->" ∧
    chars "<!-- A -->" ≠ chars "$&" := by
  decide

/-- Claim C2 (amended): when the component file's contents contain no dollar
character, `buildHTML` replaces the first occurrence of the placeholder with
the contents byte for byte; contents containing JS replacement patterns such
as dollar-ampersand are instead interpreted per `GetSubstitution`. -/
theorem C2_dollar_free_insertion (t h name : List Char) (i : Nat)
    (hi : indexOf? (placeholder name) t = some i) (hd : dollarChar ∉ h) :
    buildHTML t [⟨name, some h, none, none⟩]
      = List.take i t ++ h ++ List.drop (i + (placeholder name).length) t := by
  show replaceFirst t (placeholder name) h = _
  unfold replaceFirst
  rw [hi]
  show List.take i t
      ++ getSubstitution (placeholder name) (List.take i t)
          (List.drop (i + (placeholder name).length) t) h
      ++ List.drop (i + (placeholder name).length) t = _
  rw [getSubstitution_no_dollar _ _ _ _ hd]

/-- Witness for C2 at a concrete input. -/
theorem C2_dollar_free_insertion_witness :
    indexOf? (placeholder (chars "A")) (chars "<p><!-- A --></p>") = some 3 ∧
    dollarChar ∉ chars "hi" ∧
    buildHTML (chars "<p><!-- A --></p>") [⟨chars "A", some (chars "hi"), none, none⟩]
      = List.take 3 (chars "<p><!-- A --></p>") ++ chars "hi"
        ++ List.drop (3 + (placeholder (chars "A")).length) (chars "<p><!-- A --></p>") :=
  ⟨by decide, by decide,
    C2_dollar_free_insertion (chars "<p><!-- A --></p>") (chars "hi") (chars "A") 3
      (by decide) (by decide)⟩

/-! ## Claim C3 -/

/-- Claim C3 counterexample: an unquoted occurrence `url(core/assets/images/`
is NOT left unmodified — the optional-quote regex matches it and rewrites it
to a single-quoted `url('build/assets/images/` prefix. -/
theorem C3_counterexample :
    updateCSSPaths (chars "url(core/assets/images/x.png)")
      = chars "url(" ++ singleQuoteChar :: chars "build/assets/images/x.png)" ∧
    updateCSSPaths (chars "url(core/assets/images/x.png)")
      ≠ chars "url(core/assets/images/x.png)" := by
  decide

/-- Claim C3 (amended): the HTML rewrites are global substitutions of exactly
the two literal prefixes; the CSS rewrites match `url(` followed by an
OPTIONAL single or double quote before the literal asset prefix, so unquoted
and double-quoted occurrences are also rewritten (normalized to a single
quote); any input containing no occurrence of these patterns is left
unmodified. -/
theorem C3_rewrite_patterns (h c : List Char)
    (hh1 : occursIn (chars "src=\"core/assets/images/") h = false)
    (hh2 : occursIn (chars "href=\"core/assets/images/") h = false)
    (hc1 : occursIn (chars "url(" ++ chars "core/assets/images/") c = false)
    (hc2 : occursIn (chars "url(" ++ singleQuoteChar :: chars "core/assets/images/") c = false)
    (hc3 : occursIn (chars "url(" ++ doubleQuoteChar :: chars "core/assets/images/") c = false)
    (hc4 : occursIn (chars "url(" ++ chars "core/assets/fonts/") c = false)
    (hc5 : occursIn (chars "url(" ++ singleQuoteChar :: chars "core/assets/fonts/") c = false)
    (hc6 : occursIn (chars "url(" ++ doubleQuoteChar :: chars "core/assets/fonts/") c = false) :
    updateHTMLPaths h = h ∧ updateCSSPaths c = c ∧
    updateCSSPaths (chars "url(core/assets/images/i.png)")
      = chars "url(" ++ singleQuoteChar :: chars "build/assets/images/i.png)" ∧
    updateCSSPaths (chars "url(\"core/assets/fonts/f.woff\")")
      = chars "url(" ++ singleQuoteChar :: chars "build/assets/fonts/f.woff\")" ∧
    updateCSSPaths (chars "url('core/assets/images/j.png')")
      = chars "url(" ++ singleQuoteChar :: chars "build/assets/images/j.png')" := by
  refine ⟨?_, ?_, by decide, by decide, by decide⟩
  · unfold updateHTMLPaths
    rw [replaceAllLit_not_occurs _ _ h hh1, replaceAllLit_not_occurs _ _ h hh2]
  · unfold updateCSSPaths
    rw [replaceAllOptQuote_not_occurs _ _ _ c hc1 hc2 hc3,
      replaceAllOptQuote_not_occurs _ _ _ c hc4 hc5 hc6]

/-- Witness for C3 at a concrete input. -/
theorem C3_rewrite_patterns_witness :
    occursIn (chars "src=\"core/assets/images/") (chars "a") = false ∧
    updateHTMLPaths (chars "a") = chars "a" ∧ updateCSSPaths (chars "b") = chars "b" :=
  have hres := C3_rewrite_patterns (chars "a") (chars "b")
    (by decide) (by decide) (by decide) (by decide) (by decide)
    (by decide) (by decide) (by decide)
  ⟨by decide, hres.1, hres.2.1⟩

/-! ## Claim C4 -/

theorem buildCSSList_flatten (names : List String) (fs : String → Option (List Char))
    (comps : List Component) :
    buildCSSList names fs comps
      = ((names.filterMap fs).map (fun s => s ++ [nlChar])).flatten
        ++ (comps.filterMap
            (fun c => (c.css).map (fun s => cssBanner c.name ++ s ++ [nlChar]))).flatten := by
  have hcore : ∀ acc f,
      coreStep fs acc f = acc ++ ((fs f).map (fun s => s ++ [nlChar])).getD [] := by
    intro acc f
    unfold coreStep
    cases hfs : fs f <;> simp [hfs]
  have hcss : ∀ acc c,
      cssStep acc c
        = acc ++ ((c.css).map (fun s => cssBanner c.name ++ s ++ [nlChar])).getD [] := by
    intro acc c
    unfold cssStep
    cases hc : c.css <;> simp [hc]
  unfold buildCSSList
  rw [foldl_append_flatten (coreStep fs) _ hcore names [],
    foldl_append_flatten cssStep _ hcss comps _,
    flatten_map_getD, flatten_map_getD, List.map_filterMap]
  simp

theorem buildJSList_flatten (names : List String) (fs : String → Option (List Char))
    (comps : List Component) :
    buildJSList names fs comps
      = ((names.filterMap fs).map (fun s => s ++ [nlChar])).flatten
        ++ (comps.filterMap
            (fun c => (c.js).map (fun s => jsBanner c.name ++ s ++ [nlChar]))).flatten := by
  have hcore : ∀ acc f,
      coreStep fs acc f = acc ++ ((fs f).map (fun s => s ++ [nlChar])).getD [] := by
    intro acc f
    unfold coreStep
    cases hfs : fs f <;> simp [hfs]
  have hjs : ∀ acc c,
      jsStep acc c
        = acc ++ ((c.js).map (fun s => jsBanner c.name ++ s ++ [nlChar])).getD [] := by
    intro acc c
    unfold jsStep
    cases hc : c.js <;> simp [hc]
  unfold buildJSList
  rw [foldl_append_flatten (coreStep fs) _ hcore names [],
    foldl_append_flatten jsStep _ hjs comps _,
    flatten_map_getD, flatten_map_getD, List.map_filterMap]
  simp

/-- Claim C4: the merged CSS is the concatenation, in order, of each existing
core stylesheet from the fixed list followed by a newline, then for each
component in listing order whose style file exists, its comment banner, its
contents and a newline; symmetrically for the merged JS with the fixed core
script list and the script banners. -/
theorem C4_concatenation_order (fsS fsJ : String → Option (List Char))
    (comps : List Component) :
    buildCSS fsS comps
      = ((coreStyleNames.filterMap fsS).map (fun s => s ++ [nlChar])).flatten
        ++ (comps.filterMap
            (fun c => (c.css).map (fun s => cssBanner c.name ++ s ++ [nlChar]))).flatten ∧
    buildJS fsJ comps
      = ((coreScriptNames.filterMap fsJ).map (fun s => s ++ [nlChar])).flatten
        ++ (comps.filterMap
            (fun c => (c.js).map (fun s => jsBanner c.name ++ s ++ [nlChar]))).flatten :=
  ⟨buildCSSList_flatten coreStyleNames fsS comps,
    buildJSList_flatten coreScriptNames fsJ comps⟩

/-! ## Claim C5 -/

/-- Claim C5: the build pipeline is deterministic and idempotent — when a run
over a build input completes, a second run over the same input (from the
build directory the first run produced) also completes, and produces the
same three merged outputs byte for byte. -/
theorem C5_deterministic_idempotent (inp : BuildInput) (bd0 bd1 : BuildDir)
    (h1 : runBuild inp bd0 = (bd1, true)) :
    (runBuild inp bd1).2 = true ∧
    (runBuild inp bd1).1.indexHtml = bd1.indexHtml ∧
    (runBuild inp bd1).1.stylesCss = bd1.stylesCss ∧
    (runBuild inp bd1).1.scriptsJs = bd1.scriptsJs := by
  have hsucc : (runBuild inp bd0).2 = true := by rw [h1]
  rw [runBuild_isOk] at hsucc
  have hsucc2 : (runBuild inp bd1).2 = true := by rw [runBuild_isOk]; exact hsucc
  refine ⟨hsucc2, ?_⟩
  have h2 : runBuild inp bd1 = ((runBuild inp bd1).1, true) := by
    rw [← hsucc2]
  obtain ⟨t, ht, a1, a2, a3⟩ := runBuild_ok_outputs inp bd0 bd1 h1
  obtain ⟨t', ht', b1, b2, b3⟩ := runBuild_ok_outputs inp bd1 (runBuild inp bd1).1 h2
  have htt : t' = t := by
    rw [ht] at ht'
    injection ht' with ht''
    exact ht''.symm
  subst htt
  exact ⟨by rw [b1, a1], by rw [b2, a2], by rw [b3, a3]⟩

/-- Witness for C5 at a concrete input. -/
theorem C5_deterministic_idempotent_witness :
    runBuild inpW bd0W = ((runBuild inpW bd0W).1, true) ∧
    ((runBuild inpW (runBuild inpW bd0W).1).2 = true ∧
      (runBuild inpW (runBuild inpW bd0W).1).1.indexHtml = (runBuild inpW bd0W).1.indexHtml ∧
      (runBuild inpW (runBuild inpW bd0W).1).1.stylesCss = (runBuild inpW bd0W).1.stylesCss ∧
      (runBuild inpW (runBuild inpW bd0W).1).1.scriptsJs = (runBuild inpW bd0W).1.scriptsJs) :=
  ⟨rfl, C5_deterministic_idempotent inpW bd0W (runBuild inpW bd0W).1 rfl⟩

/-! ## Claim C6 -/

/-- Claim C6: a missing optional file — a component's HTML, CSS or JS file,
or an entry of the fixed core style/script lists — is tolerated: each builder
is total, and its output equals the output with that piece simply omitted
(the component dropped, or the core list entry dropped). -/
theorem C6_missing_optional_files (t : List Char) (pre post : List Component)
    (cH cC cJ : Component) (fsS fsJ : String → Option (List Char)) (nS nJ : String)
    (ns1 ns2 ms1 ms2 : List String) (comps : List Component)
    (hH : cH.html = none) (hC : cC.css = none) (hJ : cJ.js = none)
    (hS : fsS nS = none) (hJn : fsJ nJ = none) :
    buildHTML t (pre ++ cH :: post) = buildHTML t (pre ++ post) ∧
    buildCSS fsS (pre ++ cC :: post) = buildCSS fsS (pre ++ post) ∧
    buildJS fsJ (pre ++ cJ :: post) = buildJS fsJ (pre ++ post) ∧
    buildCSSList (ns1 ++ nS :: ns2) fsS comps = buildCSSList (ns1 ++ ns2) fsS comps ∧
    buildJSList (ms1 ++ nJ :: ms2) fsJ comps = buildJSList (ms1 ++ ms2) fsJ comps := by
  refine ⟨?_, ?_, ?_, ?_, ?_⟩
  · exact foldl_skip htmlStep cH (fun acc => by unfold htmlStep; rw [hH]) pre post t
  · unfold buildCSS buildCSSList
    exact foldl_skip cssStep cC (fun acc => by unfold cssStep; rw [hC]) pre post _
  · unfold buildJS buildJSList
    exact foldl_skip jsStep cJ (fun acc => by unfold jsStep; rw [hJ]) pre post _
  · unfold buildCSSList
    rw [foldl_skip (coreStep fsS) nS (fun acc => by unfold coreStep; rw [hS]) ns1 ns2 []]
  · unfold buildJSList
    rw [foldl_skip (coreStep fsJ) nJ (fun acc => by unfold coreStep; rw [hJn]) ms1 ms2 []]

/-- Witness for C6 at concrete inputs. -/
theorem C6_missing_optional_files_witness :
    buildHTML (chars "<!-- A -->")
        [⟨chars "A", some (chars "hi"), none, none⟩, ⟨chars "B", none, some (chars "b"), none⟩]
      = buildHTML (chars "<!-- A -->") [⟨chars "A", some (chars "hi"), none, none⟩] ∧
    buildCSSList ("ghost.css" :: coreStyleNames) (fun _ => none) []
      = buildCSSList coreStyleNames (fun _ => none) [] :=
  have hres := C6_missing_optional_files (chars "<!-- A -->")
    [⟨chars "A", some (chars "hi"), none, none⟩] []
    ⟨chars "B", none, some (chars "b"), none⟩
    ⟨chars "B", none, none, none⟩ ⟨chars "B", none, none, none⟩
    (fun _ => none) (fun _ => none) "ghost.css" "ghost.js"
    [] coreStyleNames [] coreScriptNames []
    rfl rfl rfl rfl rfl
  ⟨hres.1, hres.2.2.2.1⟩

/-! ## Claim C7 -/

/-- Claim C7: when the template file is absent the run fails, and none of the
three merged outputs is written — the build directory is exactly as before
the run, because `buildHTML` reads the template before its first write and
the later stages are never invoked. -/
theorem C7_missing_template_fatal (inp : BuildInput) (bd : BuildDir)
    (ht : inp.template = none) :
    runBuild inp bd = (bd, false) ∧
    (runBuild inp bd).1.indexHtml = bd.indexHtml ∧
    (runBuild inp bd).1.stylesCss = bd.stylesCss ∧
    (runBuild inp bd).1.scriptsJs = bd.scriptsJs := by
  have h := runBuild_none inp bd ht
  exact ⟨h, by rw [h], by rw [h], by rw [h]⟩

/-- Witness for C7 at a concrete input. -/
theorem C7_missing_template_fatal_witness :
    runBuild ⟨none, [], fun _ => none, fun _ => none, none, none⟩
        ⟨some (chars "old"), none, none, [], []⟩
      = (⟨some (chars "old"), none, none, [], []⟩, false) :=
  (C7_missing_template_fatal ⟨none, [], fun _ => none, fun _ => none, none, none⟩
    ⟨some (chars "old"), none, none, [], []⟩ rfl).1

/-! ## Claim C8 -/

/-- Claim C8 counterexample, refuting both halves as universally stated.
First half (no-effect): component B's placeholder does not occur in the
template, yet B affects the merged HTML, because component A's inserted HTML
introduces B's placeholder before B is processed. Second half (survival): the
placeholder of C — which has no matching component — occurs in the template
but does NOT survive, because a component whose directory name itself
contains placeholder delimiters has a placeholder overlapping it, and its
replacement deletes the occurrence. -/
theorem C8_counterexample :
    (occursIn (placeholder (chars "B")) (chars "<!-- A -->") = false ∧
      buildHTML (chars "<!-- A -->")
          [⟨chars "A", some (chars "<!-- B -->"), none, none⟩,
           ⟨chars "B", some (chars "x"), none, none⟩]
        ≠ buildHTML (chars "<!-- A -->")
          [⟨chars "A", some (chars "<!-- B -->"), none, none⟩]) ∧
    (occursIn (placeholder (chars "C")) (chars "<!-- X --> <!-- C -->") = true ∧
      List.map Char.toUpper (chars "X --> <!-- C") ≠ List.map Char.toUpper (chars "C") ∧
      occursIn (placeholder (chars "C"))
        (buildHTML (chars "<!-- X --> <!-- C -->")
          [⟨chars "X --> <!-- C", some [], none, none⟩]) = false) := by
  decide

/-- Claim C8 (amended): (survival) a placeholder occurring in the template
with no matching component survives into the merged HTML whenever the names
involved avoid the placeholder delimiter characters — the placeholder's
uppercased name and the uppercased name of every component whose HTML file
exists contain no angle brackets, and each of the latter differs from the
former — even when other components' placeholders are substituted; without
the delimiter restriction a replacement can overlap and destroy the
occurrence. (no-effect) A component whose placeholder does not occur in the
ACCUMULATED template at the point it is processed has no effect — dropping it
leaves the merged HTML unchanged; absence from the original template alone is
not sufficient, since an earlier component's insertion can introduce the
placeholder. -/
theorem C8_unmatched_no_effect (t : List Char) (pre : List Component) (c : Component)
    (post : List Component) (nameU : List Char) (comps : List Component)
    (h1 : occursIn (placeholder c.name) (buildHTML t pre) = false)
    (hu : plainName (List.map Char.toUpper nameU) = true)
    (hcomps : ∀ d ∈ comps, d.html = none ∨
      (plainName (List.map Char.toUpper d.name) = true ∧
        List.map Char.toUpper d.name ≠ List.map Char.toUpper nameU))
    (hocc : occursIn (placeholder nameU) t = true) :
    buildHTML t (pre ++ c :: post) = buildHTML t (pre ++ post) ∧
    occursIn (placeholder nameU) (buildHTML t comps) = true := by
  constructor
  · unfold buildHTML
    rw [List.foldl_append, List.foldl_append, List.foldl_cons]
    have hstep : htmlStep (List.foldl htmlStep t pre) c = List.foldl htmlStep t pre := by
      unfold htmlStep
      cases hc : c.html with
      | none => rfl
      | some h => exact replaceFirst_not_occurs _ _ h h1
    rw [hstep]
  · rw [placeholder_eq_plChars] at hocc ⊢
    exact buildHTML_preserves_plChars _ hu comps t hcomps hocc

/-- Witness for C8 at a concrete input: the mixed case — component A is
substituted, component B (placeholder absent from the accumulated template)
has no effect, and the unmatched placeholder of C survives into the merged
HTML alongside A's inserted content. -/
theorem C8_unmatched_no_effect_witness :
    occursIn (placeholder (chars "B"))
      (buildHTML (chars "<!-- A --><!-- C -->")
        [⟨chars "A", some (chars "hi"), none, none⟩]) = false ∧
    plainName (List.map Char.toUpper (chars "C")) = true ∧
    occursIn (placeholder (chars "C")) (chars "<!-- A --><!-- C -->") = true ∧
    buildHTML (chars "<!-- A --><!-- C -->")
        ([⟨chars "A", some (chars "hi"), none, none⟩]
          ++ ⟨chars "B", some (chars "x"), none, none⟩ :: [])
      = buildHTML (chars "<!-- A --><!-- C -->")
          ([⟨chars "A", some (chars "hi"), none, none⟩] ++ []) ∧
    occursIn (placeholder (chars "C"))
      (buildHTML (chars "<!-- A --><!-- C -->")
        [⟨chars "A", some (chars "hi"), none, none⟩]) = true :=
  have hres := C8_unmatched_no_effect (chars "<!-- A --><!-- C -->")
    [⟨chars "A", some (chars "hi"), none, none⟩]
    ⟨chars "B", some (chars "x"), none, none⟩ []
    (chars "C")
    [⟨chars "A", some (chars "hi"), none, none⟩]
    (by decide) (by decide) (by decide) (by decide)
  ⟨by decide, by decide, by decide, hres.1, hres.2⟩

/-! ## Claim C9 -/

/-- Claim C9: `copyAssets` over existing images and fonts source directories
(all entries regular files, distinct names) succeeds; every source file
appears in the destination byte-identically, overwriting any same-named
pre-existing destination file; every other destination file — including files
no longer present in the source — is left exactly as it was; and the three
merged output files are untouched. -/
theorem C9_copy_overwrites_keeps_stale (imgs fnts : List (String × Entry)) (bd : BuildDir)
    (h1 : allFiles imgs = true) (h2 : allFiles fnts = true)
    (h3 : (imgs.map Prod.fst).Nodup) (h4 : (fnts.map Prod.fst).Nodup) :
    ∃ bd', copyAssets (some imgs) (some fnts) bd = .ok bd' ∧
      (∀ n c, (n, Entry.file c) ∈ imgs → assocGet bd'.images n = some c) ∧
      (∀ n, n ∉ imgs.map Prod.fst → assocGet bd'.images n = assocGet bd.images n) ∧
      (∀ n c, (n, Entry.file c) ∈ fnts → assocGet bd'.fonts n = some c) ∧
      (∀ n, n ∉ fnts.map Prod.fst → assocGet bd'.fonts n = assocGet bd.fonts n) ∧
      bd'.indexHtml = bd.indexHtml ∧ bd'.stylesCss = bd.stylesCss ∧
      bd'.scriptsJs = bd.scriptsJs := by
  obtain ⟨di, hdi, hmi, hoi⟩ := copyDirEntries_spec imgs bd.images h1 h3
  obtain ⟨df, hdf, hmf, hof⟩ := copyDirEntries_spec fnts bd.fonts h2 h4
  refine ⟨{ bd with images := di, fonts := df }, ?_, hmi, hoi, hmf, hof, rfl, rfl, rfl⟩
  unfold copyAssets copyDirStage
  simp [hdi, hdf]

/-- Witness for C9 at a concrete input: `new.png` is copied over the stale
destination copy, and `stale.png` (gone from the source) is kept. -/
theorem C9_copy_overwrites_keeps_stale_witness :
    allFiles [("new.png", Entry.file (chars "NEW"))] = true ∧
    (∃ bd', copyAssets (some [("new.png", Entry.file (chars "NEW"))]) (some [])
        ⟨none, none, none, [("new.png", chars "OLD"), ("stale.png", chars "S")], []⟩ = .ok bd' ∧
      (∀ n c, (n, Entry.file c) ∈ [("new.png", Entry.file (chars "NEW"))] →
        assocGet bd'.images n = some c) ∧
      (∀ n, n ∉ ([("new.png", Entry.file (chars "NEW"))].map Prod.fst) →
        assocGet bd'.images n
          = assocGet [("new.png", chars "OLD"), ("stale.png", chars "S")] n) ∧
      (∀ n c, (n, Entry.file c) ∈ ([] : List (String × Entry)) →
        assocGet bd'.fonts n = some c) ∧
      (∀ n, n ∉ (([] : List (String × Entry)).map Prod.fst) →
        assocGet bd'.fonts n = assocGet ([] : List (String × List Char)) n) ∧
      bd'.indexHtml = none ∧ bd'.stylesCss = none ∧ bd'.scriptsJs = none) :=
  ⟨by decide,
    C9_copy_overwrites_keeps_stale [("new.png", Entry.file (chars "NEW"))] []
      ⟨none, none, none, [("new.png", chars "OLD"), ("stale.png", chars "S")], []⟩
      (by decide) (by decide) (by decide) (by decide)⟩

/-! ## Claim C10 -/

/-- Claim C10: `copyAssets` copies every listed entry without checking its
type, so — template present — the run completes exactly when every entry of
the existing asset source directories is a regular file; any non-file entry
makes `copyFileSync` raise and the whole run abort (it is not silently
skipped). -/
theorem C10_nonfile_entry_aborts (inp : BuildInput) (bd : BuildDir)
    (hT : inp.template.isSome = true) :
    ((runBuild inp bd).2 = true
      ↔ (allFilesOpt inp.images = true ∧ allFilesOpt inp.fonts = true)) := by
  rw [runBuild_isOk, hT]
  simp

/-- Witness for C10 at a concrete input: the subdirectory entry makes the run
abort. -/
theorem C10_nonfile_entry_aborts_witness :
    ((runBuild inpSubdirW ⟨none, none, none, [], []⟩).2 = true
      ↔ (allFilesOpt inpSubdirW.images = true ∧ allFilesOpt inpSubdirW.fonts = true)) ∧
    (runBuild inpSubdirW ⟨none, none, none, [], []⟩).2 = false :=
  ⟨C10_nonfile_entry_aborts inpSubdirW ⟨none, none, none, [], []⟩ rfl, rfl⟩

end SiteBuild
